/-
Verification of the vector-index subsystem of the dc-permit-navigator
repository: the chunker and index builder (scripts/build_index.py) and the
index loader / cosine-similarity search engine (lambda/handler.py).

Modelling conventions:
- Python `bytes` values are `List Nat` (one entry per byte).
- A 32-bit float is represented by its bit pattern, a `Nat` below 2^32;
  `struct.pack`/`struct.unpack` of a float is the little-endian 4-byte
  encoding of that word, which is a bijection, so byte-level round-trip
  statements are exact.
- Python exceptions (`struct.error`, a failed Bedrock call) are `Option`:
  `none` is a raised exception, `some` a normal return.
- Real-valued arithmetic of `cosine_similarity` is modelled over `ℝ`
  (`x ** 0.5` on a nonnegative float is square root).
-/
import Mathlib

namespace DCPermit

/-! ### Byte-level primitives shared by the writer and the loader -/

/-- Little-endian 4-byte encoding of a 32-bit word, as written by
`struct.pack` for a `uint32` or a `float32` bit pattern. -/
def toLE4 (w : Nat) : List Nat :=
  [w % 256, w / 256 % 256, w / 65536 % 256, w / 16777216 % 256]

/-- Little-endian interpretation of a byte list as one unsigned integer,
as decoded by `struct.unpack`. -/
def bytesToNatLE (bs : List Nat) : Nat :=
  bs.foldr (fun b acc => b % 256 + 256 * acc) 0

/-- Decode a flat byte list into consecutive little-endian 32-bit words
(the tuple returned by `struct.unpack` of a run of `float32` values,
each float represented by its bit pattern). -/
def words4 : List Nat → List Nat
  | b0 :: b1 :: b2 :: b3 :: rest =>
      (b0 % 256 + 256 * (b1 % 256 + 256 * (b2 % 256 + 256 * (b3 % 256)))) :: words4 rest
  | _ => []

theorem words4_append4 (b0 b1 b2 b3 : Nat) (rest : List Nat) :
    words4 (b0 :: b1 :: b2 :: b3 :: rest) =
      (b0 % 256 + 256 * (b1 % 256 + 256 * (b2 % 256 + 256 * (b3 % 256)))) :: words4 rest := rfl

theorem words4_toLE4 (w : Nat) (hw : w < 4294967296) (rest : List Nat) :
    words4 (toLE4 w ++ rest) = w :: words4 rest := by
  simp only [toLE4, List.cons_append, List.nil_append, words4]
  congr 1
  omega

theorem bytesToNatLE_toLE4 (w : Nat) (hw : w < 4294967296) :
    bytesToNatLE (toLE4 w) = w := by
  simp only [toLE4, bytesToNatLE, List.foldr]
  omega

/-! ### Index loader (lambda/handler.py, `load_index`)

`load_index` reads the whole blob, decodes the first two `uint32` header
words, then loops `num_vectors` times unpacking `dimensions` floats from a
slice `data[offset : offset + dimensions*4]`.  Python slicing clamps at the
end of the data, and `struct.unpack` raises `struct.error` exactly when the
slice length differs from the requested size. -/

/-- Model of `struct.unpack("I", data[off:off+4])[0]`: `none` is the
`struct.error` raised when fewer than 4 bytes remain. -/
def unpackU32 (data : List Nat) (off : Nat) : Option Nat :=
  let slice := (data.drop off).take 4
  if slice.length = 4 then some (bytesToNatLE slice) else none

/-- Model of `struct.unpack(f"{d}f", data[off : off + d*4])`: the slice is
clamped by Python slicing, and `struct.error` is raised when its length is
not exactly `d*4` bytes. -/
def unpackF32s (data : List Nat) (off d : Nat) : Option (List Nat) :=
  let slice := (data.drop off).take (d * 4)
  if slice.length = d * 4 then some (words4 slice) else none

/-- The vector-reading loop of `load_index`: starting at `off`, read `n`
vectors of `d` floats each, advancing the offset by `d*4` per vector. -/
def readVectors (data : List Nat) (d : Nat) : Nat → Nat → Option (List (List Nat))
  | 0, _ => some []
  | n + 1, off => do
      let v ← unpackF32s data off d
      let rest ← readVectors data d n (off + d * 4)
      pure (v :: rest)

/-- One chunk's retained metadata (the dict built by `chunk_permit` and
stored in `chunks.json`). -/
structure Chunk where
  text : String
  permit_id : String
  permit_name : String
  category : String
  agency : String
deriving DecidableEq

/-- Model of `load_index` in lambda/handler.py: the chunks are parsed from
`chunks.json` (no validation applied to them), then the binary blob is
decoded: `uint32` count, `uint32` dimensionality, then `count` vectors of
`dimensions` floats.  The result mirrors the globals it sets:
`(_chunks, _faiss_index.vectors, _faiss_index.dimensions)`. -/
def load_index (chunks : List Chunk) (data : List Nat) :
    Option (List Chunk × List (List Nat) × Nat) := do
  let num_vectors ← unpackU32 data 0
  let dimensions ← unpackU32 data 4
  let vectors ← readVectors data dimensions num_vectors 8
  pure (chunks, vectors, dimensions)

/-! ### Index writer (scripts/build_index.py, the save section of
`build_index`)

The writer packs `len(vectors)` and `EMBEDDING_DIMENSIONS` as `uint32`
(`struct.pack("I", n)` raises for `n ≥ 2^32`), then packs each vector with
`struct.pack(f"{EMBEDDING_DIMENSIONS}f", *vec)`, which raises unless the
vector has exactly `EMBEDDING_DIMENSIONS` entries. -/

/-- `EMBEDDING_DIMENSIONS = 256` in scripts/build_index.py. -/
def EMBEDDING_DIMENSIONS : Nat := 256

/-- Model of `struct.pack("I", n)`. -/
def packU32 (n : Nat) : Option (List Nat) :=
  if n < 4294967296 then some (toLE4 n) else none

/-- Model of `struct.pack(f"{EMBEDDING_DIMENSIONS}f", *vec)`: fails unless
the argument count matches the format count. -/
def packVec (vec : List Nat) : Option (List Nat) :=
  if vec.length = EMBEDDING_DIMENSIONS then some (vec.flatMap toLE4) else none

/-- The binary-index write of `build_index`: header then the packed
vectors, concatenated in order. -/
def write_index (vectors : List (List Nat)) : Option (List Nat) := do
  let header1 ← packU32 vectors.length
  let header2 ← packU32 EMBEDDING_DIMENSIONS
  let packed ← vectors.mapM packVec
  pure (header1 ++ header2 ++ packed.flatten)

/-- A concrete 13-byte blob: header declares 1 vector of dimensionality 1
(needing 8 + 4 = 12 bytes), followed by one zero float and one stray
trailing byte. -/
def dataEx : List Nat := [1, 0, 0, 0, 1, 0, 0, 0, 0, 0, 0, 0, 99]

/-! ### Chunker and index builder (scripts/build_index.py) -/

/-- An agency record as used by `chunk_permit`: the values `agency.get`
reads.  The agency's id is the key it is stored under in the lookup map. -/
structure Agency where
  name : Option String
  formerly : Option String
deriving DecidableEq

/-- A permit record.  `id` and `name` are accessed with `permit[...]`
(required); every other field is read with `permit.get(...)` and is
optional. -/
structure Permit where
  id : String
  name : String
  agency : Option String
  category : Option String
  description : Option String
  requirements : Option String
  fees : Option String
  processing_time : Option String
  how_to_apply : Option String
  apply_url : Option String
  notes : Option String
  related_permits : Option (List String)
deriving DecidableEq

/-- `agencies.get(permit.get("agency", ""), {}).get("name", "Unknown Agency")`:
the denormalized display name, with the sentinel both when the foreign key
is absent from the lookup and when the agency record has no name. -/
def agencyName (p : Permit) (agencies : List (String × Agency)) : String :=
  match agencies.lookup (p.agency.getD "") with
  | none => "Unknown Agency"
  | some a => a.name.getD "Unknown Agency"

/-- `agencies.get(permit.get("agency", ""), {}).get("formerly", "")`. -/
def formerlyName (p : Permit) (agencies : List (String × Agency)) : String :=
  match agencies.lookup (p.agency.getD "") with
  | none => ""
  | some a => a.formerly.getD ""

/-- One optional line of the chunk text: appended only when the field is
present and truthy (a non-empty string), mirroring
`if permit.get(key): parts.append(f"Label: {permit[key]}")`. -/
def optPart (label : String) (v : Option String) : List String :=
  match v with
  | none => []
  | some s => if s = "" then [] else [label ++ s]

/-- The `parts` list assembled by `chunk_permit`, in source order. -/
def chunk_parts (p : Permit) (agencies : List (String × Agency)) : List String :=
  ("Permit: " ++ p.name) ::
  ("Category: " ++ p.category.getD "N/A") ::
  ("Agency: " ++ agencyName p agencies) ::
  ((if formerlyName p agencies = "" then []
    else ["(Formerly: " ++ formerlyName p agencies ++ ")"]) ++
   ["Description: " ++ p.description.getD "N/A"] ++
   optPart "Requirements: " p.requirements ++
   optPart "Fees: " p.fees ++
   optPart "Processing Time: " p.processing_time ++
   optPart "How to Apply: " p.how_to_apply ++
   optPart "Application URL: " p.apply_url ++
   optPart "Notes: " p.notes ++
   (match p.related_permits with
    | none => []
    | some l => if l = [] then []
                else ["Related Permits: " ++ String.intercalate ", " l]))

/-- Model of `chunk_permit`: one chunk per permit, text joined with
newlines, metadata fields as in the source dict literal. -/
def chunk_permit (p : Permit) (agencies : List (String × Agency)) : List Chunk :=
  [{ text := String.intercalate "\n" (chunk_parts p agencies),
     permit_id := p.id,
     permit_name := p.name,
     category := p.category.getD "",
     agency := agencyName p agencies }]

/-- The chunking loop of `build_index`: `all_chunks.extend(chunks)` over
all permits in order. -/
def all_chunks (permits : List Permit) (agencies : List (String × Agency)) : List Chunk :=
  permits.flatMap (fun p => chunk_permit p agencies)

/-- The embedding loop of `build_index`: one `embed` call per chunk text,
in order, collecting the vectors; `none` is a raised exception from the
external embedding service. -/
def embed_all (embed : String → Option (List Nat)) (chunks : List Chunk) :
    Option (List (List Nat)) :=
  chunks.mapM (fun c => embed c.text)

/-- The JSON object `json.dump` writes for one chunk: its fields as
key/value pairs in the source dict-literal order. -/
def chunkToJson (c : Chunk) : List (String × String) :=
  [("text", c.text), ("permit_id", c.permit_id), ("permit_name", c.permit_name),
   ("category", c.category), ("agency", c.agency)]

/-- Parsing one chunk object back from its JSON key/value pairs, as
`json.load` followed by the handler's field reads. -/
def chunkOfJson (j : List (String × String)) : Option Chunk :=
  match j with
  | [(k1, t), (k2, pid), (k3, pn), (k4, cat), (k5, ag)] =>
      if k1 = "text" ∧ k2 = "permit_id" ∧ k3 = "permit_name" ∧
         k4 = "category" ∧ k5 = "agency"
      then some ⟨t, pid, pn, cat, ag⟩ else none
  | _ => none

/-- The `chunks.json` artifact: the ordered list of chunk objects. -/
def writeChunks (cs : List Chunk) : List (List (String × String)) :=
  cs.map chunkToJson

/-- Reading the `chunks.json` artifact back. -/
def loadChunks (js : List (List (String × String))) : Option (List Chunk) :=
  js.mapM chunkOfJson

/-- Model of `build_index`: chunk every permit, embed every chunk, and
only then produce the two artifacts (binary index blob and chunk list);
any embedding failure aborts the build before anything is written. -/
def build_index (permits : List Permit) (agencies : List (String × Agency))
    (embed : String → Option (List Nat)) :
    Option (List Nat × List (List (String × String))) := do
  let cs := all_chunks permits agencies
  let vectors ← embed_all embed cs
  let blob ← write_index vectors
  pure (blob, writeChunks cs)

/-- The packed byte run `struct.pack(f"{n}f", *vec)` produces for one
vector (each float contributing its 4 little-endian bytes). -/
def bytesOfVec (v : List Nat) : List Nat :=
  v.flatMap toLE4

/-- A concrete permit with only the required fields. -/
def permitEx : Permit :=
  ⟨"p1", "A", none, none, none, none, none, none, none, none, none, none⟩

/-- A concrete permit whose agency foreign key resolves to nothing. -/
def permitEx2 : Permit :=
  { permitEx with id := "p2", name := "B", agency := some "dcra" }

/-- The chunk `chunk_permit` produces for `permitEx` with an empty agency
lookup. -/
def chunkEx : Chunk :=
  ⟨"Permit: A\nCategory: N/A\nAgency: Unknown Agency\nDescription: N/A",
   "p1", "A", "", "Unknown Agency"⟩

/-! ### Cosine similarity and search (lambda/handler.py)

Float arithmetic is modelled over `ℝ`; `x ** 0.5` on the nonnegative
sum of squares is the real square root. -/

/-- `dot = sum(x * y for x, y in zip(a, b))`: `zip` silently truncates to
the shorter operand. -/
def dotList (a b : List ℝ) : ℝ :=
  ((a.zip b).map (fun p => p.1 * p.2)).sum

/-- `norm_a = sum(x * x for x in a) ** 0.5`. -/
noncomputable def normList (a : List ℝ) : ℝ :=
  Real.sqrt ((a.map (fun x => x * x)).sum)

/-- Model of `cosine_similarity` in lambda/handler.py. -/
noncomputable def cosine_similarity (a b : List ℝ) : ℝ :=
  if normList a = 0 ∨ normList b = 0 then 0
  else dotList a b / (normList a * normList b)

/-- `TOP_K = 5` in lambda/handler.py. -/
def TOP_K : Nat := 5

/-- The comparison under which CPython's stable
`sort(key=lambda x: x[1], reverse=True)` orders the similarity pairs:
`p` may precede `q` exactly when `p`'s score is at least `q`'s. -/
noncomputable def scoreLE (p q : Nat × ℝ) : Bool :=
  decide (q.2 ≤ p.2)

/-- The `similarities` list built by `search_index`'s loop:
`(i, cosine_similarity(query, vec))` for each stored vector in order. -/
noncomputable def similarities (query : List ℝ) (vectors : List (List ℝ)) :
    List (Nat × ℝ) :=
  (vectors.map (fun vec => cosine_similarity query vec)).enum

/-- Model of `search_index`: returns `[]` when no index is loaded,
otherwise the similarity pairs sorted stably by score descending, then
sliced to the first `top_k`. -/
noncomputable def search_index (query : List ℝ) (index : Option (List (List ℝ)))
    (top_k : Nat) : List (Nat × ℝ) :=
  match index with
  | none => []
  | some vectors => ((similarities query vectors).mergeSort scoreLE).take top_k

/-- State-passing form of `search_index` for the frame property: the
store is the one heap object the function can reach; the body only
iterates over it (the in-place `.sort()` is applied to the freshly built
`similarities` list, never to the store), so the store state after the
call is returned unchanged alongside the result. -/
noncomputable def search_index_st (query : List ℝ) (store : List (List ℝ))
    (top_k : Nat) : List (Nat × ℝ) × List (List ℝ) :=
  (((similarities query store).mergeSort scoreLE).take top_k, store)

/-! ### Lambda handler (lambda/handler.py, `lambda_handler`) -/

/-- Python `str.strip()` whitespace test: the exact set of code points
for which CPython's `str.isspace()` holds — U+0009..U+000D, U+001C..U+0020,
U+0085 (NEL), U+00A0 (NBSP), U+1680, U+2000..U+200A, U+2028, U+2029,
U+202F, U+205F, U+3000. -/
def isPySpace (c : Char) : Bool :=
  (9 ≤ c.toNat && c.toNat ≤ 13) || (28 ≤ c.toNat && c.toNat ≤ 32) ||
  c.toNat = 133 || c.toNat = 160 || c.toNat = 5760 ||
  (8192 ≤ c.toNat && c.toNat ≤ 8202) || c.toNat = 8232 || c.toNat = 8233 ||
  c.toNat = 8239 || c.toNat = 8287 || c.toNat = 12288

/-- Python `str.strip()`: remove leading and trailing characters from the
full Python whitespace set `isPySpace`. -/
def pyStrip (s : String) : String :=
  String.mk (((s.data.dropWhile isPySpace).reverse.dropWhile isPySpace).reverse)

/-- One call to an external service (S3 or Bedrock), identified by its
payload; the handler's observable outbound traffic. -/
inductive ExtCall where
  | s3Download : String → ExtCall
  | bedrockInvoke : String → ExtCall
deriving DecidableEq

/-- The ambient state `lambda_handler` runs against: the rate-limit
check's verdict, the /tmp cache state, the parsed artifacts, and the
responses the external services would give. -/
structure LambdaEnv where
  rateOk : Bool
  chunksCached : Bool
  indexCached : Bool
  chunks : List Chunk
  vectors : List (List ℝ)
  embed : String → List ℝ
  generate : String → String

/-- The chunk-text collection loop of `lambda_handler`: indices out of
range of the chunk list are silently skipped (`if idx < len(_chunks)`). -/
noncomputable def context_chunks (chunks : List Chunk) (results : List (Nat × ℝ)) :
    List String :=
  (results.filter (fun p => decide (p.1 < chunks.length))).map
    (fun p => (chunks.getD p.1 ⟨"", "", "", "", ""⟩).text)

/-- Model of `lambda_handler` (non-OPTIONS path), returning the response
status code and the trace of external calls made, in order.  The question
is stripped, validated (empty, then over-500-characters), then the rate
limit is consulted (a /tmp file, not an external call); only after all
that are S3 (for uncached artifacts), the embedding model, and the
generation model invoked. -/
noncomputable def lambda_handler (env : LambdaEnv) (question_raw : String) :
    Nat × List ExtCall :=
  let question := pyStrip question_raw
  if question = "" then (400, [])
  else if question.length > 500 then (400, [])
  else if env.rateOk = false then (429, [])
  else
    let loadCalls :=
      (if env.chunksCached then [] else [ExtCall.s3Download "chunks.json"]) ++
      (if env.indexCached then [] else [ExtCall.s3Download "permits.index"])
    let query_vector := env.embed question
    let results := search_index query_vector (some env.vectors) TOP_K
    let context := String.intercalate "\n\n---\n\n" (context_chunks env.chunks results)
    (200, loadCalls ++
      [ExtCall.bedrockInvoke question, ExtCall.bedrockInvoke (context ++ question)])

/-- A concrete environment for handler witnesses. -/
def envEx : LambdaEnv :=
  ⟨true, true, true, [], [], fun _ => [], fun _ => ""⟩

/-! ### Characterising the loader's success and failure -/

theorem words4_length : ∀ bs : List Nat, (words4 bs).length = bs.length / 4 := by
  intro bs
  induction bs using words4.induct with
  | case1 b0 b1 b2 b3 rest ih => simp [words4, ih]; omega
  | case2 bs h => cases bs with
    | nil => simp [words4]
    | cons a t => cases t with
      | nil => simp [words4]
      | cons b t2 => cases t2 with
        | nil => simp [words4]
        | cons c t3 => cases t3 with
          | nil => simp [words4]
          | cons d t4 => exact absurd rfl (h a b c d t4)

theorem header_length_ge (data : List Nat) (d : Nat)
    (h : unpackU32 data 4 = some d) : 8 ≤ data.length := by
  by_contra hlt
  have hne : ((data.drop 4).take 4).length ≠ 4 := by
    simp only [List.length_take, List.length_drop]
    omega
  simp only [unpackU32] at h
  rw [if_neg hne] at h
  exact Option.noConfusion h

theorem unpackF32s_some (data : List Nat) (off d : Nat)
    (h : off + d * 4 ≤ data.length) :
    ∃ v, unpackF32s data off d = some v ∧ v.length = d := by
  have hlen : ((data.drop off).take (d * 4)).length = d * 4 := by
    simp only [List.length_take, List.length_drop]
    omega
  refine ⟨words4 ((data.drop off).take (d * 4)), ?_, ?_⟩
  · simp [unpackF32s, hlen]
  · rw [words4_length, hlen]
    omega

theorem unpackF32s_none (data : List Nat) (off d : Nat) (hd : 0 < d)
    (h : data.length < off + d * 4) :
    unpackF32s data off d = none := by
  have hlen : ((data.drop off).take (d * 4)).length ≠ d * 4 := by
    simp only [List.length_take, List.length_drop]
    omega
  simp [unpackF32s, hlen]
  omega

theorem readVectors_some (data : List Nat) (d : Nat) :
    ∀ n off, off + n * (d * 4) ≤ data.length →
      ∃ vs, readVectors data d n off = some vs ∧ vs.length = n ∧
        ∀ v ∈ vs, v.length = d := by
  intro n
  induction n with
  | zero => intro off _; exact ⟨[], rfl, rfl, by simp⟩
  | succ m ih =>
    intro off h
    have hsm : (m + 1) * (d * 4) = m * (d * 4) + d * 4 := by ring
    have h1 : off + d * 4 ≤ data.length := by omega
    obtain ⟨v, hv, hvl⟩ := unpackF32s_some data off d h1
    obtain ⟨vs, hvs, hvsl, hall⟩ := ih (off + d * 4) (by omega)
    refine ⟨v :: vs, ?_, by simp [hvsl], ?_⟩
    · simp [readVectors, hv, hvs]
    · intro w hw
      rcases List.mem_cons.mp hw with h | h
      · subst h; exact hvl
      · exact hall w h

theorem readVectors_none (data : List Nat) (d : Nat) (hd : 0 < d) :
    ∀ n off, 0 < n → data.length < off + n * (d * 4) →
      readVectors data d n off = none := by
  intro n
  induction n with
  | zero => intro off h; omega
  | succ m ih =>
    intro off _ h
    have hsm : (m + 1) * (d * 4) = m * (d * 4) + d * 4 := by ring
    by_cases h1 : off + d * 4 ≤ data.length
    · obtain ⟨v, hv, _⟩ := unpackF32s_some data off d h1
      have hm : 0 < m := by
        rcases Nat.eq_zero_or_pos m with hm0 | hm0
        · subst hm0; omega
        · exact hm0
      have hrest : readVectors data d m (off + d * 4) = none :=
        ih (off + d * 4) hm (by omega)
      simp [readVectors, hv, hrest]
    · have h2 : unpackF32s data off d = none := unpackF32s_none data off d hd (by omega)
      simp [readVectors, h2]

/-- Claim C1 counterexample: a blob whose byte length (13) differs from
`8 + count*dimensionality*4` (= 12), paired with a metadata store whose
record count (0) differs from the declared vector count (1), is loaded
successfully by `load_index` — no error of any kind is raised, the
trailing byte is silently ignored, and the metadata count is never
compared with the vector count. -/
theorem load_index_accepts_corrupt_input :
    dataEx.length ≠ 8 + 1 * (1 * 4) ∧ ([] : List Chunk).length ≠ 1 ∧
      load_index [] dataEx = some ([], [[0]], 1) := by decide

/-- Claim C1 (amended): `load_index` raises an error (a `struct.error`
from a short unpack slice, not a `CorruptIndexError`) exactly when the
blob is shorter than `8 + count*dimensionality*4` bytes for the declared
header values; a longer blob loads successfully with the trailing bytes
silently ignored, and the loaded result is the same for every metadata
store, so a metadata record count differing from the vector count is
never detected. -/
theorem load_index_amended (chunks : List Chunk) (data : List Nat) (n d : Nat)
    (h0 : unpackU32 data 0 = some n) (h4 : unpackU32 data 4 = some d) :
    (data.length < 8 + n * (d * 4) → load_index chunks data = none) ∧
    (8 + n * (d * 4) ≤ data.length →
      ∃ vectors, vectors.length = n ∧ (∀ v ∈ vectors, v.length = d) ∧
        ∀ chunks2, load_index chunks2 data = some (chunks2, vectors, d)) := by
  have hlen8 : 8 ≤ data.length := header_length_ge data d h4
  constructor
  · intro hlt
    have hd : 0 < d := by
      rcases Nat.eq_zero_or_pos d with h | h
      · subst h; simp at hlt; omega
      · exact h
    have hn : 0 < n := by
      rcases Nat.eq_zero_or_pos n with h | h
      · subst h; simp at hlt; omega
      · exact h
    have hnone : readVectors data d n 8 = none :=
      readVectors_none data d hd n 8 hn (by omega)
    simp [load_index, h0, h4, hnone]
  · intro hle
    obtain ⟨vs, hvs, hvsl, hall⟩ := readVectors_some data d n 8 (by omega)
    exact ⟨vs, hvsl, hall, fun chunks2 => by simp [load_index, h0, h4, hvs]⟩

/-- Witness for the amended Claim C1 theorem at the concrete corrupt blob
`dataEx` (header count 1, dimensionality 1, 13 bytes). -/
theorem load_index_amended_witness :
    ∃ vectors : List (List Nat), vectors.length = 1 ∧
      (∀ v ∈ vectors, v.length = 1) ∧
      ∀ chunks2, load_index chunks2 dataEx = some (chunks2, vectors, 1) :=
  (load_index_amended [] dataEx 1 1 (by decide) (by decide)).2 (by decide)

/-! ### `mapM` over `Option`: pointwise characterisation -/

theorem mapM_option_some {α β : Type} (f : α → Option β) :
    ∀ (l : List α) (r : List β), l.mapM f = some r →
      r.length = l.length ∧
      ∀ i (h : i < l.length) (h' : i < r.length),
        f (l.get ⟨i, h⟩) = some (r.get ⟨i, h'⟩) := by
  intro l
  induction l with
  | nil =>
    intro r hr
    simp only [List.mapM_nil, pure, Option.some.injEq] at hr
    subst hr
    exact ⟨rfl, fun i h _ => absurd h (Nat.not_lt_zero i)⟩
  | cons a t ih =>
    intro r hr
    simp only [List.mapM_cons] at hr
    cases hfa : f a with
    | none => rw [hfa] at hr; simp at hr
    | some b =>
      rw [hfa] at hr
      cases hft : t.mapM f with
      | none => rw [hft] at hr; simp at hr
      | some bs =>
        rw [hft] at hr
        simp only [Option.pure_def, Option.bind_eq_bind, Option.some_bind,
          Option.some.injEq] at hr
        obtain ⟨hlen, hpt⟩ := ih bs hft
        subst hr
        refine ⟨by simp [hlen], ?_⟩
        intro i h h'
        cases i with
        | zero => simpa using hfa
        | succ j =>
          have hj : j < t.length := by simpa using h
          have hj' : j < bs.length := by simpa using h'
          simpa using hpt j hj hj'

theorem mapM_option_none {α β : Type} (f : α → Option β) :
    ∀ (l : List α) (x : α), x ∈ l → f x = none → l.mapM f = none := by
  intro l
  induction l with
  | nil => intro x hx; exact absurd hx (List.not_mem_nil x)
  | cons a t ih =>
    intro x hx hfx
    simp only [List.mapM_cons]
    rcases List.mem_cons.mp hx with h | h
    · subst h; rw [hfx]; rfl
    · cases hfa : f a with
      | none => rfl
      | some b => rw [ih x h hfx]; rfl

/-- Claim C2: Invariant I1 holds for the builder's output — the staged
vector list is as long as the chunk list, and the vector at every
position `i` is exactly the embedding of the text of the chunk at
position `i`, for every permit corpus, agency lookup, and embedding
function. -/
theorem build_satisfies_I1 (permits : List Permit) (agencies : List (String × Agency))
    (embed : String → Option (List Nat)) (vectors : List (List Nat))
    (h : embed_all embed (all_chunks permits agencies) = some vectors) :
    vectors.length = (all_chunks permits agencies).length ∧
    ∀ i (hc : i < (all_chunks permits agencies).length) (hv : i < vectors.length),
      embed ((all_chunks permits agencies).get ⟨i, hc⟩).text =
        some (vectors.get ⟨i, hv⟩) := by
  have h' : (all_chunks permits agencies).mapM (fun c => embed c.text) = some vectors := h
  exact mapM_option_some (fun c => embed c.text) (all_chunks permits agencies) vectors h'

/-- Witness for Claim C2 at a one-permit corpus and the constant
embedding function. -/
theorem build_satisfies_I1_witness :
    ([[0]] : List (List Nat)).length = (all_chunks [permitEx] []).length ∧
    ∀ i (hc : i < (all_chunks [permitEx] []).length)
      (hv : i < ([[0]] : List (List Nat)).length),
      (fun _ => some [0]) ((all_chunks [permitEx] []).get ⟨i, hc⟩).text =
        some (([[0]] : List (List Nat)).get ⟨i, hv⟩) :=
  build_satisfies_I1 [permitEx] [] (fun _ => some [0]) [[0]] (by decide)

/-- Claim C6: if the embedding call fails for any chunk, the build
produces no artifacts at all — vectors are staged in memory and both
artifacts exist only when every chunk has been embedded. -/
theorem build_all_or_nothing (permits : List Permit)
    (agencies : List (String × Agency)) (embed : String → Option (List Nat))
    (h : ∃ c ∈ all_chunks permits agencies, embed c.text = none) :
    build_index permits agencies embed = none := by
  obtain ⟨c, hc, hf⟩ := h
  have hnone : embed_all embed (all_chunks permits agencies) = none := by
    show (all_chunks permits agencies).mapM (fun c => embed c.text) = none
    exact mapM_option_none (fun c => embed c.text) (all_chunks permits agencies) c hc hf
  simp [build_index, hnone]

/-- Witness for Claim C6: an embedding service that always fails makes
the build of a one-permit corpus produce nothing. -/
theorem build_all_or_nothing_witness :
    build_index [permitEx] [] (fun _ => none) = none :=
  build_all_or_nothing [permitEx] [] (fun _ => none) ⟨chunkEx, by decide, rfl⟩

/-- Claim C7: a permit whose agency foreign key is absent from the agency
lookup still chunks successfully, with the sentinel name
"Unknown Agency" both in the chunk's `agency` metadata field and in the
Agency line of the chunk text. -/
theorem chunk_permit_unknown_agency (p : Permit) (agencies : List (String × Agency))
    (h : agencies.lookup (p.agency.getD "") = none) :
    chunk_permit p agencies =
      [{ text := String.intercalate "\n" (chunk_parts p agencies),
         permit_id := p.id, permit_name := p.name,
         category := p.category.getD "", agency := "Unknown Agency" }] ∧
    "Agency: Unknown Agency" ∈ chunk_parts p agencies := by
  have hname : agencyName p agencies = "Unknown Agency" := by
    simp [agencyName, h]
  constructor
  · simp [chunk_permit, hname]
  · have hc : "Agency: " ++ agencyName p agencies = "Agency: Unknown Agency" := by
      rw [hname]; decide
    simp only [chunk_parts]
    rw [hc]
    exact List.mem_cons_of_mem _ (List.mem_cons_of_mem _ (List.mem_cons_self _ _))

/-- Witness for Claim C7 at a concrete permit whose agency key "dcra" is
missing from an empty lookup. -/
theorem chunk_permit_unknown_agency_witness :
    chunk_permit permitEx2 [] =
      [{ text := String.intercalate "\n" (chunk_parts permitEx2 []),
         permit_id := permitEx2.id, permit_name := permitEx2.name,
         category := permitEx2.category.getD "", agency := "Unknown Agency" }] ∧
    "Agency: Unknown Agency" ∈ chunk_parts permitEx2 [] :=
  chunk_permit_unknown_agency permitEx2 [] rfl

/-! ### Round-trip of the persisted index (Claim C3) -/

theorem toLE4_length (w : Nat) : (toLE4 w).length = 4 := rfl

theorem bytesOfVec_length (v : List Nat) : (bytesOfVec v).length = v.length * 4 := by
  induction v with
  | nil => rfl
  | cons w t ih =>
    simp only [bytesOfVec, List.flatMap_cons, List.length_append, toLE4_length,
      List.length_cons] at ih ⊢
    omega

theorem words4_bytesOfVec (v : List Nat) (rest : List Nat)
    (hv : ∀ w ∈ v, w < 4294967296) :
    words4 (bytesOfVec v ++ rest) = v ++ words4 rest := by
  induction v with
  | nil => rfl
  | cons w t ih =>
    have hw : w < 4294967296 := hv w (List.mem_cons_self _ _)
    have ht : ∀ x ∈ t, x < 4294967296 := fun x hx => hv x (List.mem_cons_of_mem _ hx)
    simp only [bytesOfVec, List.flatMap_cons] at ih ⊢
    rw [List.append_assoc, words4_toLE4 w hw, ih ht, List.cons_append]

theorem mapM_packVec :
    ∀ vectors : List (List Nat), (∀ v ∈ vectors, v.length = EMBEDDING_DIMENSIONS) →
      vectors.mapM packVec = some (vectors.map bytesOfVec) := by
  intro vectors
  induction vectors with
  | nil => intro _; rfl
  | cons v t ih =>
    intro h
    have hv : packVec v = some (bytesOfVec v) := by
      simp [packVec, h v (List.mem_cons_self _ _), bytesOfVec]
    rw [List.mapM_cons, hv, ih (fun x hx => h x (List.mem_cons_of_mem _ hx))]
    rfl

theorem readVectors_concat (d : Nat) :
    ∀ (vecs : List (List Nat)) (data : List Nat) (off : Nat),
      data.drop off = (vecs.map bytesOfVec).flatten →
      (∀ v ∈ vecs, v.length = d ∧ ∀ w ∈ v, w < 4294967296) →
      readVectors data d vecs.length off = some vecs := by
  intro vecs
  induction vecs with
  | nil => intro data off _ _; rfl
  | cons v t ih =>
    intro data off hdrop hall
    have hv := hall v (List.mem_cons_self _ _)
    have hlenv : (bytesOfVec v).length = d * 4 := by rw [bytesOfVec_length, hv.1]
    have hdrop' : data.drop off = bytesOfVec v ++ (t.map bytesOfVec).flatten := by
      simpa using hdrop
    have hslice : (data.drop off).take (d * 4) = bytesOfVec v := by
      rw [hdrop']
      exact List.take_left' hlenv
    have hwords : words4 (bytesOfVec v) = v := by
      have h0 := words4_bytesOfVec v [] hv.2
      simpa [show words4 ([] : List Nat) = [] from rfl] using h0
    have hunpack : unpackF32s data off d = some v := by
      simp only [unpackF32s]
      rw [hslice, if_pos hlenv, hwords]
    have hdrop2 : data.drop (off + d * 4) = (t.map bytesOfVec).flatten := by
      rw [← List.drop_drop, hdrop']
      exact List.drop_left' hlenv
    have hrest := ih data (off + d * 4) hdrop2
      (fun x hx => hall x (List.mem_cons_of_mem _ hx))
    show readVectors data d (t.length + 1) off = some (v :: t)
    simp [readVectors, hunpack, hrest]

theorem chunkOfJson_chunkToJson (c : Chunk) : chunkOfJson (chunkToJson c) = some c := by
  cases c
  simp [chunkToJson, chunkOfJson]

theorem loadChunks_writeChunks :
    ∀ cs : List Chunk, loadChunks (writeChunks cs) = some cs := by
  intro cs
  induction cs with
  | nil => rfl
  | cons c t ih =>
    show ((c :: t).map chunkToJson).mapM chunkOfJson = some (c :: t)
    rw [List.map_cons, List.mapM_cons, chunkOfJson_chunkToJson]
    have ih' : (t.map chunkToJson).mapM chunkOfJson = some t := ih
    rw [ih']
    rfl

/-- Claim C3: writing an index (any vector count below 2^32, the fixed
dimensionality 256, float words below 2^32) and loading it back
reproduces exactly the vectors (byte-for-byte through the packed format)
and the chunk metadata records (field-for-field), in the same order. -/
theorem persisted_index_round_trip (vectors : List (List Nat)) (chunks : List Chunk)
    (hcount : vectors.length < 4294967296)
    (hv : ∀ v ∈ vectors, v.length = EMBEDDING_DIMENSIONS ∧ ∀ w ∈ v, w < 4294967296) :
    ∃ blob, write_index vectors = some blob ∧
      load_index chunks blob = some (chunks, vectors, EMBEDDING_DIMENSIONS) ∧
      loadChunks (writeChunks chunks) = some chunks := by
  refine ⟨toLE4 vectors.length ++ toLE4 EMBEDDING_DIMENSIONS ++
    (vectors.map bytesOfVec).flatten, ?_, ?_, loadChunks_writeChunks chunks⟩
  · have h1 : packU32 vectors.length = some (toLE4 vectors.length) := by
      simp [packU32, hcount]
    have h2 : packU32 EMBEDDING_DIMENSIONS = some (toLE4 EMBEDDING_DIMENSIONS) := by
      simp [packU32, EMBEDDING_DIMENSIONS]
    have h3 : vectors.mapM packVec = some (vectors.map bytesOfVec) :=
      mapM_packVec vectors (fun x hx => (hv x hx).1)
    rw [write_index, h1, h2, h3]
    rfl
  · have h0 : unpackU32 (toLE4 vectors.length ++ toLE4 EMBEDDING_DIMENSIONS ++
        (vectors.map bytesOfVec).flatten) 0 = some vectors.length := by
      have hsl : ((toLE4 vectors.length ++ toLE4 EMBEDDING_DIMENSIONS ++
          (vectors.map bytesOfVec).flatten).drop 0).take 4 = toLE4 vectors.length := by
        rw [List.drop_zero, List.append_assoc]
        exact List.take_left' (toLE4_length _)
      simp only [unpackU32]
      rw [hsl, if_pos (toLE4_length _), bytesToNatLE_toLE4 _ hcount]
    have h4 : unpackU32 (toLE4 vectors.length ++ toLE4 EMBEDDING_DIMENSIONS ++
        (vectors.map bytesOfVec).flatten) 4 = some EMBEDDING_DIMENSIONS := by
      have hdr : (toLE4 vectors.length ++ toLE4 EMBEDDING_DIMENSIONS ++
          (vectors.map bytesOfVec).flatten).drop 4 =
          toLE4 EMBEDDING_DIMENSIONS ++ (vectors.map bytesOfVec).flatten := by
        rw [List.append_assoc]
        exact List.drop_left' (toLE4_length _)
      have hsl : ((toLE4 vectors.length ++ toLE4 EMBEDDING_DIMENSIONS ++
          (vectors.map bytesOfVec).flatten).drop 4).take 4 =
          toLE4 EMBEDDING_DIMENSIONS := by
        rw [hdr]
        exact List.take_left' (toLE4_length _)
      simp only [unpackU32]
      rw [hsl, if_pos (toLE4_length _), bytesToNatLE_toLE4 _ (by decide)]
    have hdr8 : (toLE4 vectors.length ++ toLE4 EMBEDDING_DIMENSIONS ++
        (vectors.map bytesOfVec).flatten).drop 8 = (vectors.map bytesOfVec).flatten := by
      have h8 : (toLE4 vectors.length ++ toLE4 EMBEDDING_DIMENSIONS).length = 8 := rfl
      exact List.drop_left' h8
    have hrd := readVectors_concat EMBEDDING_DIMENSIONS vectors _ 8 hdr8 hv
    simp only [load_index, h0, h4, Option.pure_def, Option.bind_eq_bind, Option.some_bind]
    rw [hrd]
    rfl

/-- Witness for Claim C3 at the empty index (vector count 0) and a
one-chunk metadata store. -/
theorem persisted_index_round_trip_witness :
    ∃ blob, write_index [] = some blob ∧
      load_index [chunkEx] blob = some ([chunkEx], [], EMBEDDING_DIMENSIONS) ∧
      loadChunks (writeChunks [chunkEx]) = some [chunkEx] :=
  persisted_index_round_trip [] [chunkEx] (by decide) (by simp)

/-! ### Cosine similarity (Claims C4 and C10) -/

theorem sum_squares_nonneg (a : List ℝ) : 0 ≤ (a.map (fun x => x * x)).sum := by
  apply List.sum_nonneg
  intro x hx
  rcases List.mem_map.mp hx with ⟨y, _, rfl⟩
  exact mul_self_nonneg y

theorem dotList_self (a : List ℝ) : dotList a a = (a.map (fun x => x * x)).sum := by
  induction a with
  | nil => rfl
  | cons x t ih =>
    have ih' : ((t.zip t).map (fun p => p.1 * p.2)).sum = (t.map (fun x => x * x)).sum := ih
    show (((x :: t).zip (x :: t)).map (fun p => p.1 * p.2)).sum =
      ((x :: t).map (fun x => x * x)).sum
    simp only [List.zip_cons_cons, List.map_cons, List.sum_cons]
    rw [ih']

/-- Claim C4: the similarity function returns `dot(a,b) / (‖a‖ * ‖b‖)`,
returns exactly 0 whenever either vector has zero magnitude (no
division-by-zero error), gives identical non-zero vectors a score of 1,
and gives orthogonal vectors a score of 0. -/
theorem cosine_similarity_spec (a b : List ℝ) :
    (normList a = 0 ∨ normList b = 0 → cosine_similarity a b = 0) ∧
    (normList a ≠ 0 → normList b ≠ 0 →
      cosine_similarity a b = dotList a b / (normList a * normList b)) ∧
    (normList a ≠ 0 → cosine_similarity a a = 1) ∧
    (dotList a b = 0 → cosine_similarity a b = 0) := by
  refine ⟨?_, ?_, ?_, ?_⟩
  · intro h
    unfold cosine_similarity
    rw [if_pos h]
  · intro ha hb
    unfold cosine_similarity
    rw [if_neg (not_or.mpr ⟨ha, hb⟩)]
  · intro ha
    unfold cosine_similarity
    rw [if_neg (not_or.mpr ⟨ha, ha⟩)]
    have hS : 0 ≤ (a.map (fun x => x * x)).sum := sum_squares_nonneg a
    have hmul : normList a * normList a = (a.map (fun x => x * x)).sum :=
      Real.mul_self_sqrt hS
    have hne : (a.map (fun x => x * x)).sum ≠ 0 := by
      intro h0
      exact ha (by unfold normList; rw [h0, Real.sqrt_zero])
    rw [dotList_self, hmul, div_self hne]
  · intro hd
    unfold cosine_similarity
    by_cases h : normList a = 0 ∨ normList b = 0
    · rw [if_pos h]
    · rw [if_neg h, hd, zero_div]

/-- Witness for Claim C4: identical non-zero vectors score 1, orthogonal
vectors score 0, and a zero vector scores 0 against anything. -/
theorem cosine_similarity_spec_witness :
    cosine_similarity [(3 : ℝ), 4] [(3 : ℝ), 4] = 1 ∧
    cosine_similarity [(3 : ℝ), 4] [(4 : ℝ), -3] = 0 ∧
    cosine_similarity [(0 : ℝ), 0] [(1 : ℝ), 2] = 0 := by
  have hn : normList [(3 : ℝ), 4] ≠ 0 := by
    unfold normList
    rw [Real.sqrt_ne_zero']
    norm_num
  refine ⟨(cosine_similarity_spec [(3 : ℝ), 4] [(3 : ℝ), 4]).2.2.1 hn, ?_, ?_⟩
  · refine (cosine_similarity_spec [(3 : ℝ), 4] [(4 : ℝ), -3]).2.2.2 ?_
    norm_num [dotList]
  · refine (cosine_similarity_spec [(0 : ℝ), 0] [(1 : ℝ), 2]).1 (Or.inl ?_)
    unfold normList
    norm_num [Real.sqrt_zero]

theorem zip_take_min : ∀ a b : List ℝ,
    a.zip b = (a.take (min a.length b.length)).zip (b.take (min a.length b.length)) := by
  intro a
  induction a with
  | nil => intro b; simp
  | cons x t ih =>
    intro b
    cases b with
    | nil => simp
    | cons y s =>
      simp only [List.zip_cons_cons, List.length_cons, Nat.succ_min_succ,
        List.take_succ_cons]
      exact congrArg (List.cons (x, y)) (ih s)

/-- Claim C10: for vectors of unequal lengths the similarity function
raises no error and silently returns a prefix-based score — the dot
product ranges over only the first `min(len a, len b)` components while
each norm is taken over its full vector. -/
theorem cosine_similarity_prefix (a b : List ℝ) :
    dotList a b =
      dotList (a.take (min a.length b.length)) (b.take (min a.length b.length)) ∧
    cosine_similarity a b =
      (if normList a = 0 ∨ normList b = 0 then 0
       else dotList (a.take (min a.length b.length)) (b.take (min a.length b.length)) /
         (normList a * normList b)) := by
  have hd : dotList a b =
      dotList (a.take (min a.length b.length)) (b.take (min a.length b.length)) := by
    unfold dotList
    rw [zip_take_min a b]
  exact ⟨hd, by unfold cosine_similarity; rw [hd]⟩

/-! ### Search ranking (Claims C5 and C9) -/

theorem scoreLE_iff (p q : Nat × ℝ) : scoreLE p q = true ↔ q.2 ≤ p.2 := by
  simp [scoreLE]

theorem scoreLE_trans : ∀ a b c : Nat × ℝ, scoreLE a b → scoreLE b c → scoreLE a c := by
  intro a b c hab hbc
  rw [scoreLE_iff] at hab hbc ⊢
  exact le_trans hbc hab

theorem scoreLE_total : ∀ a b : Nat × ℝ, scoreLE a b || scoreLE b a := by
  intro a b
  simp only [scoreLE, Bool.or_eq_true, decide_eq_true_eq]
  exact le_total b.2 a.2

theorem enum_pairwise_fst (l : List ℝ) :
    l.enum.Pairwise (fun p q => p.1 < q.1) := by
  have h1 : (l.enum.map Prod.fst).Pairwise (· < ·) := by
    rw [List.enum_map_fst]
    exact List.pairwise_lt_range l.length
  exact List.pairwise_map.mp h1

theorem enum_nodup (l : List ℝ) : l.enum.Nodup :=
  (List.nodup_enum_map_fst l).of_map Prod.fst

theorem enum_fst_inj (scores : List ℝ) (p q : Nat × ℝ)
    (hp : p ∈ scores.enum) (hq : q ∈ scores.enum) (h : p.1 = q.1) : p = q := by
  rw [List.mem_enum_iff_getElem?] at hp hq
  rw [h] at hp
  rw [hp] at hq
  exact Prod.ext h (Option.some.inj hq)

theorem pair_sublist_of_fst_lt :
    ∀ l : List (Nat × ℝ), l.Pairwise (fun p q => p.1 < q.1) →
      ∀ p q, p ∈ l → q ∈ l → p.1 < q.1 → List.Sublist [p, q] l := by
  intro l
  induction l with
  | nil => intro _ p q hp; exact absurd hp (List.not_mem_nil p)
  | cons x t ih =>
    intro hpw p q hp hq hlt
    have hx := List.pairwise_cons.mp hpw
    rcases List.mem_cons.mp hp with rfl | hp'
    · rcases List.mem_cons.mp hq with rfl | hq'
      · exact absurd hlt (lt_irrefl _)
      · exact List.Sublist.cons₂ p (List.singleton_sublist.mpr hq')
    · rcases List.mem_cons.mp hq with rfl | hq'
      · exact absurd hlt (not_lt.mpr (le_of_lt (hx.1 p hp')))
      · exact List.Sublist.cons x (ih hx.2 p q hp' hq' hlt)

theorem pair_sublist_antisymm :
    ∀ l : List (Nat × ℝ), l.Nodup → ∀ a b : Nat × ℝ,
      List.Sublist [a, b] l → List.Sublist [b, a] l → a = b := by
  intro l
  induction l with
  | nil => intro _ a b hab; exact absurd hab (by simp)
  | cons x t ih =>
    intro hnd a b hab hba
    have hx : x ∉ t := (List.nodup_cons.mp hnd).1
    have ht : t.Nodup := (List.nodup_cons.mp hnd).2
    cases hab with
    | cons _ hab' =>
      cases hba with
      | cons _ hba' => exact ih ht a b hab' hba'
      | cons₂ _ hba' =>
        have hmem : x ∈ t := hab'.subset (by simp)
        exact absurd hmem hx
    | cons₂ _ hab' =>
      cases hba with
      | cons _ hba' =>
        have hmem : x ∈ t := hba'.subset (by simp)
        exact absurd hmem hx
      | cons₂ _ hba' => rfl

/-- Claim C5: for every query vector, store, and `top_k`, the search
returns exactly `min top_k (store size)` pairs (all entries when `top_k`
exceeds the store size, the empty list for an empty store), ordered by
score descending with exactly-equal scores kept in ascending chunk-index
order (stable sort), and the result is the same on repeated calls. -/
theorem search_index_spec (query : List ℝ) (vectors : List (List ℝ)) (top_k : Nat) :
    (search_index query (some vectors) top_k).length = min top_k vectors.length ∧
    (search_index query (some vectors) top_k).Pairwise
      (fun p q => q.2 < p.2 ∨ (p.2 = q.2 ∧ p.1 < q.1)) ∧
    search_index query (some vectors) top_k = search_index query (some vectors) top_k := by
  refine ⟨?_, ?_, rfl⟩
  · show (((similarities query vectors).mergeSort scoreLE).take top_k).length = _
    rw [List.length_take, List.length_mergeSort]
    simp [similarities]
  · show (((similarities query vectors).mergeSort scoreLE).take top_k).Pairwise _
    apply List.Pairwise.sublist (List.take_sublist top_k _)
    rw [List.pairwise_iff_forall_sublist]
    intro p q hsub
    have hpw := List.sorted_mergeSort scoreLE_trans scoreLE_total (similarities query vectors)
    have hle : q.2 ≤ p.2 :=
      (scoreLE_iff p q).mp (List.pairwise_iff_forall_sublist.mp hpw hsub)
    rcases lt_or_eq_of_le hle with hlt | heq
    · exact Or.inl hlt
    · refine Or.inr ⟨heq.symm, ?_⟩
      have hpm : p ∈ similarities query vectors :=
        List.mem_mergeSort.mp (hsub.subset (by simp))
      have hqm : q ∈ similarities query vectors :=
        List.mem_mergeSort.mp (hsub.subset (by simp))
      have hnd : ((similarities query vectors).mergeSort scoreLE).Nodup :=
        ((List.mergeSort_perm (similarities query vectors) scoreLE).nodup_iff).mpr
          (enum_nodup (vectors.map (fun vec => cosine_similarity query vec)))
      have hne : p ≠ q := by
        intro hpq
        subst hpq
        exact (List.pairwise_iff_forall_sublist.mp hnd hsub) rfl
      have hfst : p.1 ≠ q.1 := fun h1 =>
        hne (enum_fst_inj (vectors.map (fun vec => cosine_similarity query vec))
          p q hpm hqm h1)
      rcases lt_or_gt_of_ne hfst with h | h
      · exact h
      · exfalso
        have hsub2 : List.Sublist [q, p] (similarities query vectors) :=
          pair_sublist_of_fst_lt (similarities query vectors)
            (enum_pairwise_fst (vectors.map (fun vec => cosine_similarity query vec)))
            q p hqm hpm h
        have hsub2s : List.Sublist [q, p] ((similarities query vectors).mergeSort scoreLE) :=
          List.pair_sublist_mergeSort scoreLE_trans scoreLE_total
            ((scoreLE_iff q p).mpr heq.ge) hsub2
        exact hne (pair_sublist_antisymm _ hnd q p hsub2s hsub).symm

/-- Claim C9: the search does not mutate the store — the store state
after the call is exactly the store given, and the value computed agrees
with the pure search model. -/
theorem search_index_frame (query : List ℝ) (store : List (List ℝ)) (top_k : Nat) :
    (search_index_st query store top_k).2 = store ∧
    (search_index_st query store top_k).1 = search_index query (some store) top_k :=
  ⟨rfl, rfl⟩

/-! ### Request validation (Claim C8) -/

/-- Claim C8: a request whose question is empty after stripping, or
longer than 500 characters, is rejected with a 400 response before any
external call is made — the call trace is empty. -/
theorem handler_rejects_invalid_before_calls (env : LambdaEnv) (question_raw : String)
    (h : pyStrip question_raw = "" ∨ 500 < (pyStrip question_raw).length) :
    lambda_handler env question_raw = (400, []) := by
  rcases h with h | h
  · simp [lambda_handler, h]
  · by_cases he : pyStrip question_raw = ""
    · rw [he] at h
      simp at h
    · simp [lambda_handler, he, h]

/-- Witness for Claim C8 at a whitespace-only question. -/
theorem handler_rejects_invalid_before_calls_witness :
    lambda_handler envEx "   " = (400, []) :=
  handler_rejects_invalid_before_calls envEx "   " (Or.inl (by decide))

end DCPermit
